import Mathlib

/-!
# Verification of mcpmap's parameter-conversion engine and metadata cache

This file gives a shallow embedding, in Lean 4, of the schema-driven
parameter conversion engine (`converter.go`, `schema.go`) and the
file-backed metadata cache (`cache/cache.go`) of the `mcpmap` repository,
together with theorems settling the frozen claims about them.

Modelling conventions:
* Go `any` values produced by JSON decoding and by the converters are
  modelled by the inductive `GoValue`.  Go represents JSON numbers decoded
  into `any` as `float64`; we model such numbers exactly as rationals
  (`Rat`).  This is exact for every number small enough that `float64`
  is exact, which covers all inputs the claims exercise.
* Go strings are Lean `String`s; `[]byte(s)` is modelled by an explicit
  UTF-8 encoder producing `List Nat` (byte values).
* Go maps are modelled as association lists in insertion order with
  last-write-wins insertion; Go's randomized map iteration order is
  replaced by this deterministic order (it only influences which of
  several errors surfaces first, never success/failure).
* Filesystem state for one cache entry is the content of the one cache
  file; the content is modelled by its JSON parse result
  (`FileContent.json j`) or by `FileContent.notJson` for bytes that are
  not valid JSON.  Directory creation, read and rename are assumed to
  succeed (their failure paths are plain error propagation in the source).
-/

/-- Characters Go's `strings.TrimSpace` removes, restricted to ASCII
(`unicode.IsSpace` on ASCII input): space, \t, \n, \v, \f, \r. -/
def isGoSpace (c : Char) : Bool :=
  c = ' ' || c = '\t' || c = '\n' || c = '\x0b' || c = '\x0c' || c = '\r'

/-- Model of Go `strings.TrimSpace` (ASCII whitespace). -/
def goTrim (s : String) : String :=
  ⟨(s.data.dropWhile isGoSpace).reverse.dropWhile isGoSpace |>.reverse⟩

/-- Model of Go `strings.SplitN(s, sep, 2)` for a one-character separator:
`none` when the separator does not occur (Go then returns a 1-element
slice), otherwise the parts before and after its first occurrence. -/
def splitN2 (s : String) (c : Char) : Option (String × String) :=
  if s.data.contains c then
    some (⟨s.data.takeWhile (· ≠ c)⟩, ⟨(s.data.dropWhile (· ≠ c)).tail⟩)
  else
    none

/-- Association-list lookup, modelling Go map indexing `m[k]`. -/
def lookupKey {α : Type} : List (String × α) → String → Option α
  | [], _ => none
  | (k, v) :: rest, key => if k = key then some v else lookupKey rest key

/-- Association-list insertion, modelling Go map assignment `m[k] = v`:
replaces the value at an existing key in place, else appends. -/
def insertKey {α : Type} : List (String × α) → String → α → List (String × α)
  | [], key, v => [(key, v)]
  | (k, w) :: rest, key, v =>
      if k = key then (k, v) :: rest else (k, w) :: insertKey rest key v

/-- Space-separated concatenation, the body of Go's `%v` rendering of a
slice (without the surrounding brackets). -/
def joinSpace : List String → String
  | [] => ""
  | [x] => x
  | x :: rest => x ++ " " ++ joinSpace rest


/-- Model of Go `strings.Contains(s, sub)` for a one-character needle
(list-based so that proofs can evaluate it). -/
def goStrContains (s : String) (c : Char) : Bool :=
  s.data.contains c

/-- Model of Go `strings.HasPrefix`. -/
def goStartsWith (s pre : String) : Bool :=
  pre.data.isPrefixOf s.data

/-- Model of Go `strings.HasSuffix`. -/
def goEndsWith (s suf : String) : Bool :=
  suf.data.isSuffixOf s.data

/-- Model of Go `strings.Split(s, ",")`. -/
def goSplitComma (s : String) : List String :=
  (s.data.splitOn ',').map (fun l => (⟨l⟩ : String))

/-- Dynamic values: the image of Go `any` under JSON decoding and under
the schema converters.  `.int` is `int64` (produced by `convertInteger`),
`.float` is `float64` (produced by JSON decoding and `convertNumber`,
modelled exactly as a rational), `.null` is the nil interface value. -/
inductive GoValue where
  | null : GoValue
  | bool (b : Bool) : GoValue
  | int (n : Int) : GoValue
  | float (q : Rat) : GoValue
  | str (s : String) : GoValue
  | arr (xs : List GoValue) : GoValue
  | obj (fields : List (String × GoValue)) : GoValue
deriving Repr

mutual

/-- Go interface equality `==` between two dynamic values: unequal dynamic
types are unequal (in particular `int64 1 != float64 1`).  Go panics when
comparing non-comparable types (slices, maps); we compare them
structurally instead — no claim exercises that case. -/
def GoValue.beq : GoValue → GoValue → Bool
  | .null, .null => true
  | .bool a, .bool b => a = b
  | .int a, .int b => a = b
  | .float a, .float b => a = b
  | .str a, .str b => a = b
  | .arr a, .arr b => GoValue.beqList a b
  | .obj a, .obj b => GoValue.beqFields a b
  | _, _ => false

def GoValue.beqList : List GoValue → List GoValue → Bool
  | [], [] => true
  | x :: xs, y :: ys => GoValue.beq x y && GoValue.beqList xs ys
  | _, _ => false

def GoValue.beqFields : List (String × GoValue) → List (String × GoValue) → Bool
  | [], [] => true
  | (k, x) :: xs, (l, y) :: ys => k = l && GoValue.beq x y && GoValue.beqFields xs ys
  | _, _ => false

end

/-- Model of Go `slices.Contains(enum, value)` over dynamic values. -/
def goContainsValue (l : List GoValue) (v : GoValue) : Bool :=
  l.any (fun x => GoValue.beq x v)

/-- Prepend '0' characters until the string has length `k`. -/
def padZeros (s : String) (k : Nat) : String :=
  ⟨List.replicate (k - s.length) '0' ++ s.data⟩

/-- Drop trailing '0' characters. -/
def trimRightZeros (s : String) : String :=
  ⟨(s.data.reverse.dropWhile (· = '0')).reverse⟩

/-- Model of Go's `%v` rendering of a `float64` (`strconv.FormatFloat 'g'`):
integral values print without a decimal point, other values as an exact
decimal expansion.  Go switches to e-notation for very small or very
large magnitudes; no claim reaches that regime. -/
def goFormatFloat (q : Rat) : String :=
  if q.den = 1 then toString q.num
  else
    match (List.range 400).find? (fun k => 10 ^ (k + 1) % q.den = 0) with
    | none => toString q.num ++ "/" ++ toString q.den
    | some k0 =>
      let k := k0 + 1
      let sign := if q.num < 0 then "-" else ""
      let scaled := q.num.natAbs * 10 ^ k / q.den
      let ip := scaled / 10 ^ k
      let fp := scaled % 10 ^ k
      sign ++ toString ip ++ "." ++ trimRightZeros (padZeros (toString fp) k)

mutual

/-- Model of Go `fmt.Sprintf("%v", x)` on a dynamic value.  Deviation:
Go prints map entries sorted by key; we keep the model's insertion
order (no claim renders an object). -/
def goSprintfV : GoValue → String
  | .null => "<nil>"
  | .bool b => if b then "true" else "false"
  | .int n => toString n
  | .float q => goFormatFloat q
  | .str s => s
  | .arr xs => "[" ++ joinSpace (goSprintfList xs) ++ "]"
  | .obj fs => "map[" ++ joinSpace (goSprintfFields fs) ++ "]"

def goSprintfList : List GoValue → List String
  | [] => []
  | x :: xs => goSprintfV x :: goSprintfList xs

def goSprintfFields : List (String × GoValue) → List String
  | [] => []
  | (k, v) :: fs => (k ++ ":" ++ goSprintfV v) :: goSprintfFields fs

end

/-! ## JSON decoding (Go `encoding/json.Unmarshal` into `any`) -/

/-- JSON insignificant whitespace (RFC 8259): space, tab, LF, CR. -/
def jsonSkipWs (cs : List Char) : List Char :=
  cs.dropWhile (fun c => c = ' ' || c = '\t' || c = '\n' || c = '\r')

/-- Hex digit value. -/
def hexVal (c : Char) : Option Nat :=
  if '0' ≤ c ∧ c ≤ '9' then some (c.toNat - '0'.toNat)
  else if 'a' ≤ c ∧ c ≤ 'f' then some (c.toNat - 'a'.toNat + 10)
  else if 'A' ≤ c ∧ c ≤ 'F' then some (c.toNat - 'A'.toNat + 10)
  else none

/-- Four hex digits to a code unit. -/
def hex4 (a b c d : Char) : Option Nat := do
  let x ← hexVal a
  let y ← hexVal b
  let z ← hexVal c
  let w ← hexVal d
  return ((x * 16 + y) * 16 + z) * 16 + w

/-- Body of a JSON string literal (after the opening quote): returns the
decoded characters and the input after the closing quote.  Handles the
JSON escapes; an unpaired surrogate decodes to U+FFFD as in Go.  The
fuel argument is always called with more fuel than input characters, and
every step consumes at least one character, so fuel never runs out. -/
def jsonStringBody : Nat → List Char → Option (List Char × List Char)
  | 0, _ => none
  | _ + 1, [] => none
  | _ + 1, '"' :: rest => some ([], rest)
  | fuel + 1, '\\' :: esc =>
    match esc with
    | '"' :: rest => (jsonStringBody fuel rest).map (fun (s, r) => ('"' :: s, r))
    | '\\' :: rest => (jsonStringBody fuel rest).map (fun (s, r) => ('\\' :: s, r))
    | '/' :: rest => (jsonStringBody fuel rest).map (fun (s, r) => ('/' :: s, r))
    | 'b' :: rest => (jsonStringBody fuel rest).map (fun (s, r) => ('\x08' :: s, r))
    | 'f' :: rest => (jsonStringBody fuel rest).map (fun (s, r) => ('\x0c' :: s, r))
    | 'n' :: rest => (jsonStringBody fuel rest).map (fun (s, r) => ('\n' :: s, r))
    | 'r' :: rest => (jsonStringBody fuel rest).map (fun (s, r) => ('\r' :: s, r))
    | 't' :: rest => (jsonStringBody fuel rest).map (fun (s, r) => ('\t' :: s, r))
    | 'u' :: a :: b :: c :: d :: rest =>
      match hex4 a b c d with
      | none => none
      | some n =>
        if 0xD800 ≤ n ∧ n ≤ 0xDBFF then
          match rest with
          | '\\' :: 'u' :: e :: f :: g :: h :: rest2 =>
            match hex4 e f g h with
            | some m =>
              if 0xDC00 ≤ m ∧ m ≤ 0xDFFF then
                let cp := 0x10000 + (n - 0xD800) * 0x400 + (m - 0xDC00)
                if hcp : cp.isValidChar then
                  (jsonStringBody fuel rest2).map (fun (s, r) => (Char.ofNatAux cp hcp :: s, r))
                else (jsonStringBody fuel rest2).map (fun (s, r) => ('�' :: s, r))
              else (jsonStringBody fuel rest2).map (fun (s, r) => ('�' :: '�' :: s, r))
            | none => none
          | _ => (jsonStringBody fuel rest).map (fun (s, r) => ('�' :: s, r))
        else if 0xDC00 ≤ n ∧ n ≤ 0xDFFF then
          (jsonStringBody fuel rest).map (fun (s, r) => ('�' :: s, r))
        else
          if hn : n.isValidChar then
            (jsonStringBody fuel rest).map (fun (s, r) => (Char.ofNatAux n hn :: s, r))
          else none
    | _ => none
  | fuel + 1, c :: rest =>
    if c.toNat < 0x20 then none
    else (jsonStringBody fuel rest).map (fun (s, r) => (c :: s, r))

/-- A run of ASCII digits. -/
def digitRun (cs : List Char) : List Char × List Char :=
  (cs.takeWhile Char.isDigit, cs.dropWhile Char.isDigit)

/-- Digits to a natural number. -/
def digitsToNat (ds : List Char) : Nat :=
  ds.foldl (fun acc c => acc * 10 + (c.toNat - '0'.toNat)) 0

/-- `m * 10 ^ scale` as an exact rational, built with `mkRat` so that
proofs can evaluate it. -/
def pow10Scale (m : Int) (scale : Int) : Rat :=
  match scale with
  | .ofNat k => mkRat (m * ((10 ^ k : Nat) : Int)) 1
  | .negSucc k => mkRat m (10 ^ (k + 1))

/-- JSON number literal per RFC 8259 (`-?(0|[1-9][0-9]*)(\.[0-9]+)?([eE][+-]?[0-9]+)?`),
decoded the way Go decodes it into `any` — as a `float64`, modelled here
exactly as a rational. -/
def jsonNumber (cs : List Char) : Option (Rat × List Char) :=
  let (neg, cs1) := match cs with
    | '-' :: rest => (true, rest)
    | _ => (false, cs)
  let (ipart, cs2) := digitRun cs1
  if ipart = [] then none
  else if ipart.length > 1 ∧ ipart.head? = some '0' then none
  else
    let (fpart, cs3) := match cs2 with
      | '.' :: rest =>
        let (ds, r) := digitRun rest
        (some ds, r)
      | _ => (none, cs2)
    match fpart with
    | some [] => none
    | _ =>
      let fdigits := fpart.getD []
      let (epart, cs4) := match cs3 with
        | 'e' :: rest => (some rest, rest)
        | 'E' :: rest => (some rest, rest)
        | _ => (none, cs3)
      let expRes : Option (Option Int × List Char) :=
        match epart with
        | none => some (none, cs4)
        | some rest =>
          let (eneg, r1) := match rest with
            | '+' :: r => (false, r)
            | '-' :: r => (true, r)
            | _ => (false, rest)
          let (eds, r2) := digitRun r1
          if eds = [] then none
          else some (some (if eneg then -(digitsToNat eds : Int) else (digitsToNat eds : Int)), r2)
      match expRes with
      | none => none
      | some (e, rest) =>
        let mantissa : Int := (digitsToNat (ipart ++ fdigits) : Int)
        let mantissa := if neg then -mantissa else mantissa
        let scale : Int := e.getD 0 - (fdigits.length : Int)
        some (pow10Scale mantissa scale, rest)

mutual

/-- One JSON value, fuel-bounded recursive-descent.  Objects decode to
association lists with last-write-wins on duplicate keys, mirroring
decoding into `map[string]any`. -/
def jsonValue : Nat → List Char → Option (GoValue × List Char)
  | 0, _ => none
  | fuel + 1, cs =>
    match jsonSkipWs cs with
    | 'n' :: 'u' :: 'l' :: 'l' :: rest => some (.null, rest)
    | 't' :: 'r' :: 'u' :: 'e' :: rest => some (.bool true, rest)
    | 'f' :: 'a' :: 'l' :: 's' :: 'e' :: rest => some (.bool false, rest)
    | '"' :: rest => (jsonStringBody (rest.length + 1) rest).map (fun (s, r) => (.str ⟨s⟩, r))
    | '[' :: rest =>
      (match jsonSkipWs rest with
       | ']' :: r => some (.arr [], r)
       | other => (jsonElems fuel other).map (fun (xs, r) => (.arr xs, r)))
    | '{' :: rest =>
      (match jsonSkipWs rest with
       | '}' :: r => some (.obj [], r)
       | other => (jsonMembers fuel other []).map (fun (fs, r) => (.obj fs, r)))
    | other => (jsonNumber other).map (fun (q, r) => (.float q, r))

/-- Comma-separated JSON array elements up to the closing bracket. -/
def jsonElems : Nat → List Char → Option (List GoValue × List Char)
  | 0, _ => none
  | fuel + 1, cs => do
    let (v, rest) ← jsonValue fuel cs
    match jsonSkipWs rest with
    | ',' :: r => (jsonElems fuel r).map (fun (xs, r2) => (v :: xs, r2))
    | ']' :: r => some ([v], r)
    | _ => none

/-- Comma-separated JSON object members up to the closing brace,
accumulated with map-style insertion. -/
def jsonMembers : Nat → List Char → List (String × GoValue) →
    Option (List (String × GoValue) × List Char)
  | 0, _, _ => none
  | fuel + 1, cs, acc =>
    match jsonSkipWs cs with
    | '"' :: rest => do
      let (k, r1) ← jsonStringBody (rest.length + 1) rest
      match jsonSkipWs r1 with
      | ':' :: r2 => do
        let (v, r3) ← jsonValue fuel r2
        let acc := insertKey acc ⟨k⟩ v
        match jsonSkipWs r3 with
        | ',' :: r4 => jsonMembers fuel r4 acc
        | '}' :: r4 => some (acc, r4)
        | _ => none
      | _ => none
    | _ => none

end

/-- Model of `json.Unmarshal` of one whole input into `any`: a single
value, optionally surrounded by whitespace, nothing trailing. -/
def goJsonParse (s : String) : Option GoValue :=
  match jsonValue (2 * s.length + 4) s.data with
  | some (v, rest) => if jsonSkipWs rest = [] then some v else none
  | none => none

/-- `json.Unmarshal` into `[]any`: the input must be a JSON array
(JSON `null` leaves the nil slice). -/
def goUnmarshalArr (s : String) : Option (List GoValue) :=
  match goJsonParse s with
  | some (.arr xs) => some xs
  | some .null => some []
  | _ => none

/-- `json.Unmarshal` into `map[string]any`: the input must be a JSON
object (JSON `null` leaves the nil map). -/
def goUnmarshalObj (s : String) : Option (List (String × GoValue)) :=
  match goJsonParse s with
  | some (.obj fs) => some fs
  | some .null => some []
  | _ => none

/-! ## Schema data model (`schema.go`) -/

/-- `ParameterSchema` from `schema.go`.  `items` is the nil-able pointer
`*ParameterSchema`; `properties` is the nil-able
`map[string]*ParameterSchema` (an association list here); `default` is
the `any` field, with `none` for Go `nil`; `enum` is the `[]any` field
(Go nil and empty slices both behave as empty under `len(enum) > 0`). -/
inductive ParameterSchema where
  | mk (name : String) (type : String) (required : Bool)
       (default : Option GoValue) (enum : List GoValue) (format : String)
       (items : Option ParameterSchema)
       (properties : Option (List (String × ParameterSchema)))
       (description : String)

def ParameterSchema.name : ParameterSchema → String
  | mk n _ _ _ _ _ _ _ _ => n

def ParameterSchema.type : ParameterSchema → String
  | mk _ t _ _ _ _ _ _ _ => t

def ParameterSchema.required : ParameterSchema → Bool
  | mk _ _ r _ _ _ _ _ _ => r

def ParameterSchema.default : ParameterSchema → Option GoValue
  | mk _ _ _ d _ _ _ _ _ => d

def ParameterSchema.enum : ParameterSchema → List GoValue
  | mk _ _ _ _ e _ _ _ _ => e

def ParameterSchema.format : ParameterSchema → String
  | mk _ _ _ _ _ f _ _ _ => f

def ParameterSchema.items : ParameterSchema → Option ParameterSchema
  | mk _ _ _ _ _ _ i _ _ => i

def ParameterSchema.properties : ParameterSchema → Option (List (String × ParameterSchema))
  | mk _ _ _ _ _ _ _ p _ => p

def ParameterSchema.description : ParameterSchema → String
  | mk _ _ _ _ _ _ _ _ d => d

/-- `ToolSchema` from `schema.go`: the parameter map and the top-level
required-name list. -/
structure ToolSchema where
  parameters : List (String × ParameterSchema)
  required : List String

/-- Errors returned by the conversion/parsing layer: the structured
`TypeConversionError`, plain `fmt.Errorf` messages, and `%w`-wrapped
errors. -/
inductive GoError where
  | typeErr (parameter expectedType actualValue hint : String)
  | plain (msg : String)
  | wrap (pre : String) (e : GoError)
deriving Repr, DecidableEq

/-- The `errorHints` map from `converter.go`. -/
def errorHints (t : String) : String :=
  if t = "integer" then "Use whole numbers like 42 or -10"
  else if t = "number" then "Use numbers like 3.14, -0.5, or 42"
  else if t = "boolean" then "Use true/false, yes/no, 1/0, or on/off"
  else if t = "array" then "Use JSON format [1,2,3] or comma-separated: a,b,c"
  else if t = "object" then "Use JSON format: \x7b\x22key\x22:\x22value\x22\x7d"
  else if t = "string" then "Use any text value"
  else ""

/-- `validateEnum` from `converter.go`: `none` when the value is a member
of the enum under Go interface equality, an error otherwise. -/
def validateEnum (value : GoValue) (enum : List GoValue) : Option String :=
  if goContainsValue enum value then none else some "value not in enum"

/-- `validateFormat` from `converter.go`.  Note the `date-time` case of
the source fails only when the value contains neither `T` nor `-`
(`&&` of two negated `Contains` calls). -/
def validateFormat (value format : String) : Option String :=
  if format = "email" then
    if ¬ goStrContains value '@' then some "invalid email format" else none
  else if format = "uri" ∨ format = "url" then
    if ¬ (goStartsWith value "http://" ∨ goStartsWith value "https://") then
      some "invalid URL format"
    else none
  else if format = "date-time" then
    if ¬ goStrContains value 'T' ∧ ¬ goStrContains value '-' then
      some "invalid date-time format"
    else none
  else none

/-- `getFormatHint` from `converter.go`. -/
def getFormatHint (format : String) : String :=
  if format = "email" then "Use email format: user@example.com"
  else if format = "uri" ∨ format = "url" then "Use URL format: https://example.com"
  else if format = "date-time" then "Use ISO 8601 format: 2024-01-01T12:00:00Z"
  else "Must match format: " ++ format

/-- The quote-stripping prelude of `convertString`: remove one layer of
surrounding double quotes (`len(value) >= 2 && value[0] == '"' &&
value[len(value)-1] == '"'`). -/
def stripQuotes (v : String) : String :=
  if 2 ≤ v.data.length ∧ v.data.head? = some '"' ∧ v.data.getLast? = some '"' then
    ⟨(v.data.drop 1).dropLast⟩
  else v

/-- The validation part of `convertString`, applied to the already
quote-stripped value: the enum check, then the format check. -/
def convertStringChecks (v : String) (schema : ParameterSchema) : Except GoError GoValue :=
  if 0 < schema.enum.length ∧ (validateEnum (.str v) schema.enum).isSome then
    .error (.typeErr schema.name ("enum " ++ goSprintfV (.arr schema.enum)) v
      ("Must be one of: " ++ goSprintfV (.arr schema.enum)))
  else if schema.format ≠ "" ∧ (validateFormat v schema.format).isSome then
    .error (.typeErr schema.name ("string (format: " ++ schema.format ++ ")") v
      (getFormatHint schema.format))
  else .ok (.str v)

/-- `convertString` from `converter.go`: strip one layer of surrounding
double quotes, then validate (enum check, then format check). -/
def convertString (value : String) (schema : ParameterSchema) : Except GoError GoValue :=
  convertStringChecks (stripQuotes value) schema

/-- Model of Go `strconv.ParseInt(s, 10, 64)`: optional sign, decimal
digits, 64-bit signed range. -/
def goParseInt (s : String) : Option Int :=
  let (sign, ds) := match s.data with
    | '+' :: rest => ((1 : Int), rest)
    | '-' :: rest => ((-1 : Int), rest)
    | l => ((1 : Int), l)
  if ds = [] ∨ ¬ ds.all Char.isDigit then none
  else
    let n : Int := sign * (digitsToNat ds : Int)
    if -(2 ^ 63) ≤ n ∧ n ≤ 2 ^ 63 - 1 then some n else none

/-- `convertInteger` from `converter.go`: reject a decimal point, parse
as `int64`, then the enum check on the parsed value. -/
def convertInteger (value : String) (schema : ParameterSchema) : Except GoError GoValue :=
  let v := goTrim value
  if goStrContains v '.' then
    .error (.typeErr schema.name "integer" v (errorHints "integer"))
  else
    match goParseInt v with
    | none => .error (.typeErr schema.name "integer" v (errorHints "integer"))
    | some n =>
      if 0 < schema.enum.length ∧ (validateEnum (.int n) schema.enum).isSome then
        .error (.typeErr schema.name ("integer enum " ++ goSprintfV (.arr schema.enum)) v
          ("Must be one of: " ++ goSprintfV (.arr schema.enum)))
      else .ok (.int n)

/-- Model of Go `strconv.ParseFloat(s, 64)` on plain decimal inputs,
with the value kept exact as a rational.  Go additionally accepts
inf/nan spellings, hexadecimal floats and digit-group underscores, and
rounds to the nearest `float64`; no claim depends on those inputs. -/
def goParseFloat (s : String) : Option Rat :=
  let (neg, cs) := match s.data with
    | '+' :: rest => (false, rest)
    | '-' :: rest => (true, rest)
    | l => (false, l)
  let (ip, r1) := digitRun cs
  let (fp, r2) := match r1 with
    | '.' :: rr =>
      let (ds, r) := digitRun rr
      (some ds, r)
    | _ => (none, r1)
  if ip = [] ∧ fp.getD [] = [] then none
  else
    let mant : Int := (digitsToNat (ip ++ fp.getD []) : Nat)
    let mant : Int := if neg then -mant else mant
    match r2 with
    | [] => some (pow10Scale mant (-((fp.getD []).length : Int)))
    | e :: rr =>
      if e = 'e' ∨ e = 'E' then
        let (eneg, r3) := match rr with
          | '+' :: r => (false, r)
          | '-' :: r => (true, r)
          | l => (false, l)
        let (eds, r4) := digitRun r3
        if eds = [] ∨ r4 ≠ [] then none
        else
          let ex : Int := if eneg then -(digitsToNat eds : Int) else (digitsToNat eds : Int)
          some (pow10Scale mant (ex - ((fp.getD []).length : Int)))
      else none

/-- `convertNumber` from `converter.go`. -/
def convertNumber (value : String) (schema : ParameterSchema) : Except GoError GoValue :=
  let v := goTrim value
  match goParseFloat v with
  | none => .error (.typeErr schema.name "number" v (errorHints "number"))
  | some q =>
    if 0 < schema.enum.length ∧ (validateEnum (.float q) schema.enum).isSome then
      .error (.typeErr schema.name ("number enum " ++ goSprintfV (.arr schema.enum)) v
        ("Must be one of: " ++ goSprintfV (.arr schema.enum)))
    else .ok (.float q)

/-- The `booleanTrueValues` slice from `converter.go`. -/
def booleanTrueValues : List String := ["true", "yes", "1", "on"]

/-- The `booleanFalseValues` slice from `converter.go`. -/
def booleanFalseValues : List String := ["false", "no", "0", "off"]

/-- Go `strings.ToLower` on ASCII input. -/
def goToLower (s : String) : String := ⟨s.data.map Char.toLower⟩

/-- `convertBoolean` from `converter.go`. -/
def convertBoolean (value : String) (schema : ParameterSchema) : Except GoError GoValue :=
  let v := goToLower (goTrim value)
  if booleanTrueValues.contains v then .ok (.bool true)
  else if booleanFalseValues.contains v then .ok (.bool false)
  else .error (.typeErr schema.name "boolean" v (errorHints "boolean"))

/-- `convertNull` from `converter.go`. -/
def convertNull (value : String) (schema : ParameterSchema) : Except GoError GoValue :=
  let v := goTrim value
  if v = "" ∨ v = "null" then .ok .null
  else .error (.typeErr schema.name "null" v "Use empty string or 'null'")

/-- `isJSONArray` from `converter.go`. -/
def isJSONArray (s : String) : Bool :=
  let t := goTrim s
  goStartsWith t "[" && goEndsWith t "]"

/-- A value found by association-list lookup is structurally smaller than
the list (termination measure for the object-property recursion). -/
theorem lookupKey_sizeOf {α : Type} [SizeOf α] :
    ∀ {l : List (String × α)} {k : String} {v : α},
      lookupKey l k = some v → sizeOf v < sizeOf l := by
  intro l
  induction l with
  | nil => intro k v h; simp [lookupKey] at h
  | cons hd tl ih =>
    intro k v h
    obtain ⟨hk, hv⟩ := hd
    simp only [lookupKey] at h
    by_cases hc : hk = k
    · simp [hc] at h
      subst h
      simp
      omega
    · simp [hc] at h
      have := ih h
      simp
      omega

/-- The `items` sub-schema is structurally smaller than its parent. -/
theorem items_sizeOf {s : ParameterSchema} {it : ParameterSchema}
    (h : s.items = some it) : sizeOf it < sizeOf s := by
  cases s with
  | mk n t r d e f i p desc =>
    simp [ParameterSchema.items] at h
    subst h
    simp
    omega

/-- The `properties` list is structurally smaller than its schema. -/
theorem props_sizeOf {s : ParameterSchema} {ps : List (String × ParameterSchema)}
    (h : s.properties = some ps) : sizeOf ps < sizeOf s := by
  cases s with
  | mk n t r d e f i p desc =>
    simp [ParameterSchema.properties] at h
    subst h
    simp
    omega

mutual

/-- `convertValue` from `converter.go` (the non-nil-schema case; the
`schema == nil` guard of the source returns the raw string unchanged and
is outside this model): default substitution for the empty string, then
dispatch through the `getConverters` table, unknown types passing the
value through as a string. -/
def convertValue (value : String) (schema : ParameterSchema) : Except GoError GoValue :=
  if value = "" ∧ schema.default.isSome then .ok (schema.default.getD .null)
  else convertByType value schema
termination_by (sizeOf schema, 4)
decreasing_by
  all_goals simp_wf
  all_goals first
    | (apply Prod.Lex.right; omega)
    | (apply Prod.Lex.left; first
        | exact items_sizeOf h
        | exact props_sizeOf h
        | exact lookupKey_sizeOf h)

/-- The `getConverters()[schema.Type]` dispatch of `convertValue`. -/
def convertByType (value : String) (schema : ParameterSchema) : Except GoError GoValue :=
  if schema.type = "string" then convertString value schema
  else if schema.type = "integer" then convertInteger value schema
  else if schema.type = "number" then convertNumber value schema
  else if schema.type = "boolean" then convertBoolean value schema
  else if schema.type = "array" then convertArray value schema
  else if schema.type = "object" then convertObject value schema
  else if schema.type = "null" then convertNull value schema
  else .ok (.str value)
termination_by (sizeOf schema, 3)
decreasing_by
  all_goals simp_wf
  all_goals first
    | (apply Prod.Lex.right; omega)
    | (apply Prod.Lex.left; first
        | exact items_sizeOf h
        | exact props_sizeOf h
        | exact lookupKey_sizeOf h)

/-- `convertArray` from `converter.go`: JSON decode when the trimmed
value is bracketed, otherwise comma-split (empty string first), with
per-item recursive conversion when `items` is set. -/
def convertArray (value : String) (schema : ParameterSchema) : Except GoError GoValue :=
  let v := goTrim value
  if isJSONArray v then
    match goUnmarshalArr v with
    | none =>
      .error (.typeErr schema.name "array" v ("Invalid JSON array format. " ++ errorHints "array"))
    | some result =>
      match h : schema.items with
      | some it => (convertItems it result 0).map .arr
      | none => .ok (.arr result)
  else if v = "" then .ok (.arr [])
  else
    let parts := goSplitComma v
    match h : schema.items with
    | some it => (convertItemsCSV it parts 0).map .arr
    | none => .ok (.arr (parts.map (fun p => GoValue.str (goTrim p))))
termination_by (sizeOf schema, 2)
decreasing_by
  all_goals simp_wf
  all_goals first
    | (apply Prod.Lex.right; omega)
    | (apply Prod.Lex.left; first
        | exact items_sizeOf h
        | exact props_sizeOf h
        | exact lookupKey_sizeOf h)

/-- The item loop of `convertArray`'s JSON branch: each decoded element
is re-rendered with `%v` and converted under the `items` schema; a
failure is wrapped as `array item i: <err>`. -/
def convertItems (it : ParameterSchema) : List GoValue → Nat → Except GoError (List GoValue)
  | [], _ => .ok []
  | x :: xs, i =>
    match convertValue (goSprintfV x) it with
    | .error e => .error (.wrap ("array item " ++ toString i ++ ": ") e)
    | .ok c => (convertItems it xs (i + 1)).map (fun rest => c :: rest)
termination_by xs _ => (sizeOf it, 5 + xs.length)
decreasing_by
  all_goals simp_wf
  all_goals first
    | (apply Prod.Lex.right; omega)
    | (apply Prod.Lex.left; first
        | exact items_sizeOf h
        | exact props_sizeOf h
        | exact lookupKey_sizeOf h)

/-- The item loop of `convertArray`'s comma-split branch: each part is
trimmed and converted under the `items` schema. -/
def convertItemsCSV (it : ParameterSchema) : List String → Nat → Except GoError (List GoValue)
  | [], _ => .ok []
  | p :: ps, i =>
    match convertValue (goTrim p) it with
    | .error e => .error (.wrap ("array item " ++ toString i ++ ": ") e)
    | .ok c => (convertItemsCSV it ps (i + 1)).map (fun rest => c :: rest)
termination_by ps _ => (sizeOf it, 5 + ps.length)
decreasing_by
  all_goals simp_wf
  all_goals first
    | (apply Prod.Lex.right; omega)
    | (apply Prod.Lex.left; first
        | exact items_sizeOf h
        | exact props_sizeOf h
        | exact lookupKey_sizeOf h)

/-- `convertObject` from `converter.go`: JSON decode into a map; when
`properties` is set, each present key with a child schema is re-rendered
and recursively converted, unknown keys pass through unchanged. -/
def convertObject (value : String) (schema : ParameterSchema) : Except GoError GoValue :=
  let v := goTrim value
  match goUnmarshalObj v with
  | none => .error (.typeErr schema.name "object" v (errorHints "object"))
  | some result =>
    match h : schema.properties with
    | some props => (convertFields props result).map .obj
    | none => .ok (.obj result)
termination_by (sizeOf schema, 2)
decreasing_by
  all_goals simp_wf
  all_goals first
    | (apply Prod.Lex.right; omega)
    | (apply Prod.Lex.left; first
        | exact items_sizeOf h
        | exact props_sizeOf h
        | exact lookupKey_sizeOf h)

/-- The property loop of `convertObject`. -/
def convertFields (props : List (String × ParameterSchema)) :
    List (String × GoValue) → Except GoError (List (String × GoValue))
  | [] => .ok []
  | (key, val) :: fields =>
    match h : lookupKey props key with
    | some propSchema =>
      match convertValue (goSprintfV val) propSchema with
      | .error e => .error (.wrap ("object property \x22" ++ key ++ "\x22: ") e)
      | .ok c => (convertFields props fields).map (fun rest => (key, c) :: rest)
    | none => (convertFields props fields).map (fun rest => (key, val) :: rest)
termination_by fields => (sizeOf props, 5 + fields.length)
decreasing_by
  all_goals simp_wf
  all_goals first
    | (apply Prod.Lex.right; omega)
    | (apply Prod.Lex.left; first
        | exact items_sizeOf h
        | exact props_sizeOf h
        | exact lookupKey_sizeOf h)

end

/-! ## Required-parameter validation and schema-based parsing -/

/-- The required names absent from the converted parameter map, in
declaration order (the loop of `validateRequired`). -/
def missingRequired (params : List (String × GoValue)) (schema : ToolSchema) : List String :=
  schema.required.filter (fun r => (lookupKey params r).isNone)

/-- `validateRequired` from `schema.go`: `none` when every required name
is present, otherwise one error listing every missing name (`%v` of the
`missing` slice). -/
def validateRequired (params : List (String × GoValue)) (schema : ToolSchema) : Option GoError :=
  let missing := missingRequired params schema
  if 0 < missing.length then
    some (.plain ("missing required parameters: [" ++ joinSpace missing ++ "]"))
  else none

/-- The warning `parseParamsWithSchema` records for an argument whose
name is not in the schema (`%q` of the name). -/
def paramWarnMsg (name : String) : String :=
  "parameter \x22" ++ name ++ "\x22 not found in schema"

/-- The argument loop of `parseParamsWithSchema`: split each `name=value`,
convert known parameters through their schema, pass unknown ones through
as raw strings with a warning. -/
def parseParamsAux (schema : ToolSchema) :
    List String → List (String × GoValue) → List String →
    Except GoError (List (String × GoValue) × List String)
  | [], result, warnings => .ok (result, warnings)
  | param :: rest, result, warnings =>
    match splitN2 param '=' with
    | none => .error (.plain ("invalid parameter format '" ++ param ++ "', expected name=value"))
    | some (rawName, rawValue) =>
      let name := goTrim rawName
      let value := goTrim rawValue
      if name = "" then
        .error (.plain ("parameter name cannot be empty in '" ++ param ++ "'"))
      else
        match lookupKey schema.parameters name with
        | none =>
          parseParamsAux schema rest (insertKey result name (.str value))
            (warnings ++ [paramWarnMsg name])
        | some ps =>
          match convertValue value ps with
          | .error e => .error e
          | .ok conv => parseParamsAux schema rest (insertKey result name conv) warnings

/-- `parseParamsWithSchema` from `converter.go`.  The second component
is the list of warnings printed to stderr (empty on an early conversion
error, since Go returns before the printing loop runs). -/
def parseParamsWithSchema (params : List String) (schema : ToolSchema) :
    Except GoError (List (String × GoValue)) × List String :=
  match parseParamsAux schema params [] [] with
  | .error e => (.error e, [])
  | .ok (result, warnings) =>
    match validateRequired result schema with
    | some e => (.error e, warnings)
    | none => (.ok result, warnings)

/-! ## The metadata cache (`cache/cache.go`)

`CacheData`'s three slices hold pointers to SDK record structs
(`*mcp.Tool` and friends), opaque to the cache logic; each element is
modelled by its JSON value (an object, or `null` for a nil pointer).
`none` for a whole field models the nil slice, which marshals to JSON
`null`; `some` marshals to a JSON array.  Field-level validation inside
the SDK record types during decoding is not modelled (the records are
opaque and no claim decodes a record with ill-typed inner fields). -/

structure CacheData where
  tools : Option (List GoValue)
  resources : Option (List GoValue)
  prompts : Option (List GoValue)

/-- The `cacheFile` struct from `cache/cache.go`: the on-disk envelope.
`timestamp` is the RFC3339 string `time.Time` marshals to; `data` is the
nil-able `*CacheData`. -/
structure cacheFile where
  version : Int
  timestamp : String
  serverName : String
  serverVersion : String
  data : Option CacheData

/-- A slice element decodes into a record pointer when it is a JSON
object (decoded struct) or JSON null (nil pointer). -/
def recordOk (v : GoValue) : Bool :=
  match v with
  | .obj _ => true
  | .null => true
  | _ => false

/-- A well-formed slice: every element an object or null. -/
def sliceWF : Option (List GoValue) → Bool
  | none => true
  | some xs => xs.all recordOk

/-- A well-formed metadata snapshot: every record of every slice is a
JSON object or null, which is exactly the image of marshalling actual
`[]*mcp.Tool` (and friends) values. -/
def CacheData.wf (d : CacheData) : Bool :=
  sliceWF d.tools && sliceWF d.resources && sliceWF d.prompts

/-- Marshalling of one slice field: nil slice to `null`, otherwise an
array of the record values. -/
def encodeSlice : Option (List GoValue) → GoValue
  | none => .null
  | some xs => .arr xs

/-- Marshalling of `CacheData` (field order per struct tags). -/
def encodeCacheData (d : CacheData) : GoValue :=
  .obj [("tools", encodeSlice d.tools), ("resources", encodeSlice d.resources),
        ("prompts", encodeSlice d.prompts)]

/-- Marshalling of the `cacheFile` envelope, as `Save` writes it. -/
def encodeCacheFile (cf : cacheFile) : GoValue :=
  .obj [("version", .float (cf.version : Rat)),
        ("timestamp", .str cf.timestamp),
        ("server_info", .obj [("name", .str cf.serverName), ("version", .str cf.serverVersion)]),
        ("data", match cf.data with | none => .null | some d => encodeCacheData d)]

/-- Unmarshalling of one slice field from its JSON value. -/
def decodeSlice (v : GoValue) : Option (Option (List GoValue)) :=
  match v with
  | .null => some none
  | .arr xs => if xs.all recordOk then some (some xs) else none
  | _ => none

/-- Unmarshalling a JSON value into `CacheData` (zero value `null`
allowed for the pointer target; unknown keys ignored; later duplicate
keys win, as when Go decodes members sequentially). -/
def decodeCacheData (v : GoValue) : Option CacheData :=
  match v with
  | .obj fields =>
    fields.foldlM (fun (d : CacheData) (kv : String × GoValue) =>
      if kv.1 = "tools" then (decodeSlice kv.2).map (fun s => { d with tools := s })
      else if kv.1 = "resources" then (decodeSlice kv.2).map (fun s => { d with resources := s })
      else if kv.1 = "prompts" then (decodeSlice kv.2).map (fun s => { d with prompts := s })
      else some d) ⟨none, none, none⟩
  | _ => none

/-- Unmarshalling the `server_info` sub-struct. -/
def decodeServerInfo (v : GoValue) : Option (String × String) :=
  match v with
  | .null => some ("", "")
  | .obj fields =>
    fields.foldlM (fun (p : String × String) (kv : String × GoValue) =>
      if kv.1 = "name" then
        match kv.2 with
        | .str s => some (s, p.2)
        | _ => none
      else if kv.1 = "version" then
        match kv.2 with
        | .str s => some (p.1, s)
        | _ => none
      else some p) ("", "")
  | _ => none

/-- Unmarshalling a parsed JSON value into the `cacheFile` struct, with
Go `encoding/json` semantics: a non-object (other than `null`) fails;
unknown keys are ignored; a type mismatch on a known field fails.
Because the model keeps parse results rather than byte literals, the
integer `version` field accepts any integral JSON number. -/
def decodeCacheFile (v : GoValue) : Option cacheFile :=
  match v with
  | .null => some ⟨0, "", "", "", none⟩
  | .obj fields =>
    fields.foldlM (fun (cf : cacheFile) (kv : String × GoValue) =>
      if kv.1 = "version" then
        match kv.2 with
        | .float q => if q.den = 1 then some { cf with version := q.num } else none
        | _ => none
      else if kv.1 = "timestamp" then
        match kv.2 with
        | .str s => some { cf with timestamp := s }
        | _ => none
      else if kv.1 = "server_info" then
        (decodeServerInfo kv.2).map (fun p => { cf with serverName := p.1, serverVersion := p.2 })
      else if kv.1 = "data" then
        match kv.2 with
        | .null => some { cf with data := none }
        | other => (decodeCacheData other).map (fun d => { cf with data := some d })
      else some cf) ⟨0, "", "", "", none⟩
  | _ => none

/-- The content of the one cache file for a key: either bytes that are
not valid JSON, or a valid JSON document given by its parse result. -/
inductive FileContent where
  | notJson
  | json (j : GoValue)

/-- Filesystem state visible to one `fileCache` instance: the cache file
for its key, or `none` when the file does not exist. -/
structure CacheFs where
  file : Option FileContent

/-- The `(data, isFresh, error)` triple `Load` returns. -/
structure LoadResult where
  data : Option CacheData
  isFresh : Bool
  err : Option GoError

/-- `fileCache.Load` from `cache/cache.go` as a state transition:
missing file is a miss without error; unparsable content or a version
other than 1 deletes the file and reports a miss without error; any
other hit returns the envelope's data with `isFresh` true.  Directory
creation and the read are assumed to succeed. -/
def fileCache.Load (fs : CacheFs) : LoadResult × CacheFs :=
  match fs.file with
  | none => (⟨none, false, none⟩, fs)
  | some .notJson => (⟨none, false, none⟩, ⟨none⟩)
  | some (.json j) =>
    match decodeCacheFile j with
    | none => (⟨none, false, none⟩, ⟨none⟩)
    | some cf =>
      if cf.version ≠ 1 then (⟨none, false, none⟩, ⟨none⟩)
      else (⟨cf.data, true, none⟩, fs)

/-- `fileCache.Save` from `cache/cache.go` on the happy path (marshal of
these types cannot fail; temp-file write and atomic rename assumed to
succeed): the file now holds a version-1 envelope with the given data
and timestamp, and a zero `ServerInfo`. -/
def fileCache.Save (data : Option CacheData) (ts : String) (_fs : CacheFs) :
    Option GoError × CacheFs :=
  (none, ⟨some (.json (encodeCacheFile ⟨1, ts, "", "", data⟩))⟩)

/-! ## The cache key (`generateCacheKey`): SHA-256 over concatenated
connection parameters, first 16 hex characters. -/

/-- UTF-8 encoding of one scalar value, as Go's `[]byte(s)` produces. -/
def utf8Char (c : Char) : List Nat :=
  let n := c.toNat
  if n < 0x80 then [n]
  else if n < 0x800 then [0xC0 + n / 0x40, 0x80 + n % 0x40]
  else if n < 0x10000 then [0xE0 + n / 0x1000, 0x80 + n / 0x40 % 0x40, 0x80 + n % 0x40]
  else [0xF0 + n / 0x40000, 0x80 + n / 0x1000 % 0x40, 0x80 + n / 0x40 % 0x40, 0x80 + n % 0x40]

/-- UTF-8 bytes of a string (Go `[]byte(s)`). -/
def utf8Bytes (s : String) : List Nat :=
  s.data.foldr (fun c acc => utf8Char c ++ acc) []

/-- Truncation to a 32-bit word. -/
def w32 (n : Nat) : Nat := n % 4294967296

/-- 32-bit right rotation. -/
def rotr32 (x k : Nat) : Nat := w32 ((x >>> k) ||| (x <<< (32 - k)))

/-- The SHA-256 round constants (fractional parts of the cube roots of
the first 64 primes), written in decimal. -/
def sha256K : List Nat :=
  [1116352408, 1899447441, 3049323471, 3921009573, 961987163,
   1508970993, 2453635748, 2870763221, 3624381080, 310598401,
   607225278, 1426881987, 1925078388, 2162078206, 2614888103,
   3248222580, 3835390401, 4022224774, 264347078, 604807628,
   770255983, 1249150122, 1555081692, 1996064986, 2554220882,
   2821834349, 2952996808, 3210313671, 3336571891, 3584528711,
   113926993, 338241895, 666307205, 773529912, 1294757372,
   1396182291, 1695183700, 1986661051, 2177026350, 2456956037,
   2730485921, 2820302411, 3259730800, 3345764771, 3516065817,
   3600352804, 4094571909, 275423344, 430227734, 506948616,
   659060556, 883997877, 958139571, 1322822218, 1537002063,
   1747873779, 1955562222, 2024104815, 2227730452, 2361852424,
   2428436474, 2756734187, 3204031479, 3329325298]

/-- The SHA-256 initial hash state, written in decimal. -/
def sha256H0 : List Nat :=
  [1779033703, 3144134277, 1013904242, 2773480762, 1359893119,
   2600822924, 528734635, 1541459225]

/-- Big-endian 8-byte encoding of the bit length. -/
def be64 (n : Nat) : List Nat :=
  [n / 2 ^ 56 % 256, n / 2 ^ 48 % 256, n / 2 ^ 40 % 256, n / 2 ^ 32 % 256,
   n / 2 ^ 24 % 256, n / 2 ^ 16 % 256, n / 2 ^ 8 % 256, n % 256]

/-- SHA-256 message padding: append 0x80, zeros to 56 mod 64, then the
64-bit big-endian bit length. -/
def sha256Pad (msg : List Nat) : List Nat :=
  let L := msg.length
  let z := (120 - (L + 1) % 64) % 64
  msg ++ [0x80] ++ List.replicate z 0 ++ be64 (8 * L)

/-- Split into 64-byte blocks. -/
def chunks64 (l : List Nat) : List (List Nat) :=
  if l = [] then [] else l.take 64 :: chunks64 (l.drop 64)
termination_by l.length
decreasing_by
  simp_wf
  rename_i h
  cases l with
  | nil => exact absurd rfl h
  | cons a t => simp

/-- Big-endian 4-byte groups to 32-bit words. -/
def bytesToWords : List Nat → List Nat
  | a :: b :: c :: d :: rest => (((a * 256 + b) * 256 + c) * 256 + d) :: bytesToWords rest
  | _ => []

/-- σ₀ of the SHA-256 message schedule. -/
def sSigma0 (x : Nat) : Nat := rotr32 x 7 ^^^ rotr32 x 18 ^^^ (x >>> 3)

/-- σ₁ of the SHA-256 message schedule. -/
def sSigma1 (x : Nat) : Nat := rotr32 x 17 ^^^ rotr32 x 19 ^^^ (x >>> 10)

/-- Σ₀ of the SHA-256 compression function. -/
def bSigma0 (x : Nat) : Nat := rotr32 x 2 ^^^ rotr32 x 13 ^^^ rotr32 x 22

/-- Σ₁ of the SHA-256 compression function. -/
def bSigma1 (x : Nat) : Nat := rotr32 x 6 ^^^ rotr32 x 11 ^^^ rotr32 x 25

/-- Extend the 16 block words to the 64-word schedule. -/
def extendSchedule : Nat → List Nat → List Nat
  | 0, w => w
  | k + 1, w =>
    let n := w.length
    let x := w32 (sSigma1 (w.getD (n - 2) 0) + w.getD (n - 7) 0 +
                  sSigma0 (w.getD (n - 15) 0) + w.getD (n - 16) 0)
    extendSchedule k (w ++ [x])

/-- One SHA-256 compression round on the 8-word working state. -/
def sha256Round (st : List Nat) (wi ki : Nat) : List Nat :=
  match st with
  | [a, b, c, d, e, f, g, h] =>
    let ch := (e &&& f) ^^^ ((e ^^^ 4294967295) &&& g)
    let t1 := w32 (h + bSigma1 e + ch + ki + wi)
    let maj := (a &&& b) ^^^ (a &&& c) ^^^ (b &&& c)
    let t2 := w32 (bSigma0 a + maj)
    [w32 (t1 + t2), a, b, c, w32 (d + t1), e, f, g]
  | other => other

/-- Process one 64-byte block. -/
def sha256Block (hs : List Nat) (block : List Nat) : List Nat :=
  let w := extendSchedule 48 (bytesToWords block)
  let st := (w.zip sha256K).foldl (fun st p => sha256Round st p.1 p.2) hs
  (hs.zip st).map (fun p => w32 (p.1 + p.2))

/-- SHA-256 digest (32 bytes) of a byte sequence. -/
def sha256Bytes (msg : List Nat) : List Nat :=
  let hs := (chunks64 (sha256Pad msg)).foldl sha256Block sha256H0
  hs.foldr (fun h acc => [h / 2 ^ 24 % 256, h / 2 ^ 16 % 256, h / 2 ^ 8 % 256, h % 256] ++ acc) []

/-- Lower-case hex digit. -/
def hexDigitChar (n : Nat) : Char :=
  if n < 10 then Char.ofNat ('0'.toNat + n) else Char.ofNat ('a'.toNat + (n - 10))

/-- Model of Go `hex.EncodeToString`. -/
def hexOfBytes (bs : List Nat) : String :=
  ⟨bs.foldr (fun b acc => hexDigitChar (b / 16 % 16) :: hexDigitChar (b % 16) :: acc) []⟩

/-- `generateCacheKey` from `cache/cache.go`: the SHA-256 of the four
connection parameters written into one hash stream in order — i.e. of
their separator-free concatenation — hex-encoded and truncated to the
first 16 characters. -/
def generateCacheKey (serverURL transportType authToken clientName : String) : String :=
  ⟨(hexOfBytes (sha256Bytes (utf8Bytes serverURL ++ utf8Bytes transportType ++
      utf8Bytes authToken ++ utf8Bytes clientName))).data.take 16⟩

/-! ## Concrete schemas used by the claim theorems -/

/-- A string parameter with format `date-time` and no enum. -/
def dtSchema : ParameterSchema := .mk "p" "string" false none [] "date-time" none none ""

/-- The anonymous integer `items` sub-schema. -/
def intItemSchema : ParameterSchema := .mk "" "integer" false none [] "" none none ""

/-- An array-of-integer parameter. -/
def intArraySchema : ParameterSchema := .mk "a" "array" false none [] "" (some intItemSchema) none ""

/-- An integer parameter with declared default 7. -/
def defaultIntSchema : ParameterSchema :=
  .mk "n" "integer" false (some (.int 7)) [] "" none none ""

/-- `validateFormat` at format `date-time` reduces to the source's
conjunction test. -/
theorem validateFormat_dateTime (v : String) :
    validateFormat v "date-time" =
      (if ¬ goStrContains v 'T' ∧ ¬ goStrContains v '-' then some "invalid date-time format"
       else none) := by
  unfold validateFormat
  rw [if_neg (by decide), if_neg (by decide), if_pos rfl]

/-- C3 counterexample: the claim says a `date-time` value lacking `-`
fails, but the code accepts `"T"`, which contains no `-` (the source
tests `!Contains(v, "T") && !Contains(v, "-")`). -/
theorem convertString_dateTime_claim_false :
    convertString "T" dtSchema = .ok (.str "T") ∧ goStrContains "T" '-' = false := by
  constructor
  · rfl
  · decide

/-- C3 (amended): under a string schema with format `date-time` and no
enum, conversion succeeds iff the (quote-stripped) value contains `T`
or contains `-` — it fails only when both are absent; and every format
name other than email/uri/url/date-time passes unconditionally. -/
theorem convertString_dateTime_rule :
    (∀ v : String, validateFormat v "date-time" = none ↔
      (goStrContains v 'T' = true ∨ goStrContains v '-' = true))
  ∧ (∀ v f : String, f ≠ "email" → f ≠ "uri" → f ≠ "url" → f ≠ "date-time" →
      validateFormat v f = none)
  ∧ (∀ (v : String) (schema : ParameterSchema), schema.enum = [] →
      schema.format = "date-time" →
      (convertString v schema = .ok (.str (stripQuotes v)) ↔
        (goStrContains (stripQuotes v) 'T' = true ∨ goStrContains (stripQuotes v) '-' = true))) := by
  refine ⟨?_, ?_, ?_⟩
  · intro v
    rw [validateFormat_dateTime]
    by_cases hT : goStrContains v 'T' = true <;> by_cases hD : goStrContains v '-' = true <;>
      simp [hT, hD]
  · intro v f h1 h2 h3 h4
    unfold validateFormat
    rw [if_neg h1, if_neg (by rintro (h | h) <;> contradiction), if_neg h4]
  · intro v schema henum hfmt
    unfold convertString convertStringChecks
    rw [henum, hfmt, validateFormat_dateTime]
    by_cases hT : goStrContains (stripQuotes v) 'T' = true <;>
      by_cases hD : goStrContains (stripQuotes v) '-' = true <;>
        simp [hT, hD]

/-- C3 amended-claim witness: `2024T99` contains `T` (though judged by
the claim as stated it lacks nothing relevant — it also contains no
`-`), and conversion succeeds. -/
theorem convertString_dateTime_rule_witness :
    convertString "2024T99" dtSchema = .ok (.str "2024T99") := by
  have h := convertString_dateTime_rule.2.2 "2024T99" dtSchema rfl rfl
  exact h.mpr (by decide)

/-- C4: an input that begins and ends with a double quote and has at
least two characters loses exactly one layer of quotes — `stripQuotes`
removes precisely the first and last character — before any enum or
format validation runs; and quote stripping is not iterated (a doubly
quoted input keeps its inner quotes). -/
theorem convertString_strips_one_quote_layer :
    (∀ (v : String) (schema : ParameterSchema),
      2 ≤ v.data.length → v.data.head? = some '"' → v.data.getLast? = some '"' →
      stripQuotes v = ⟨(v.data.drop 1).dropLast⟩
      ∧ convertString v schema = convertStringChecks ⟨(v.data.drop 1).dropLast⟩ schema)
  ∧ stripQuotes "\"\"a\"\"" = "\"a\"" := by
  constructor
  · intro v schema h1 h2 h3
    have hs : stripQuotes v = ⟨(v.data.drop 1).dropLast⟩ := by
      unfold stripQuotes
      rw [if_pos ⟨h1, h2, h3⟩]
    exact ⟨hs, by unfold convertString; rw [hs]⟩
  · decide

/-- C4 witness: a concrete quoted input. -/
theorem convertString_strips_one_quote_layer_witness :
    stripQuotes "\"hi\"" = "hi"
    ∧ convertString "\"hi\"" dtSchema = convertStringChecks "hi" dtSchema := by
  have h := convertString_strips_one_quote_layer.1 "\"hi\"" dtSchema
    (by decide) (by decide) (by decide)
  exact ⟨h.1, h.2⟩

/-- C5: with any declared non-nil default, converting the empty string
returns the default immediately — regardless of the schema's type, enum
or format, so no type-specific converter and no enum/format check can
reject it. -/
theorem convertValue_empty_returns_default
    (schema : ParameterSchema) (d : GoValue) (h : schema.default = some d) :
    convertValue "" schema = .ok d := by
  rw [convertValue.eq_def]
  simp [h]

/-- C5 witness: an integer schema with default 7, and a schema whose
default `"zzz"` would fail its own enum and format checks, both return
the default on empty input. -/
theorem convertValue_empty_returns_default_witness :
    convertValue "" defaultIntSchema = .ok (.int 7)
    ∧ convertValue ""
        (.mk "s" "string" false (some (.str "zzz")) [.str "a"] "date-time" none none "")
      = .ok (.str "zzz") := by
  exact ⟨convertValue_empty_returns_default defaultIntSchema (.int 7) rfl,
    convertValue_empty_returns_default _ (.str "zzz") rfl⟩

/-- Successful recursive conversion of a list of rendered strings under
one `items`/property schema, collecting the converted values (`none` as
soon as one element fails). -/
def allConverted (it : ParameterSchema) : List String → Option (List GoValue)
  | [] => some []
  | s :: rest =>
    match convertValue s it with
    | .error _ => none
    | .ok c => (allConverted it rest).map (fun cs => c :: cs)

/-- When every element of a decoded JSON array converts successfully
under the `items` schema after `%v` re-rendering, the item loop returns
exactly those converted elements. -/
theorem convertItems_of_allConverted (it : ParameterSchema) :
    ∀ (xs : List GoValue) (i : Nat) (ys : List GoValue),
      allConverted it (xs.map goSprintfV) = some ys →
      convertItems it xs i = .ok ys := by
  intro xs
  induction xs with
  | nil =>
    intro i ys h
    simp only [List.map_nil, allConverted, Option.some.injEq] at h
    subst h
    rw [convertItems.eq_def]
  | cons x xs ih =>
    intro i ys h
    simp only [List.map_cons, allConverted] at h
    cases hcv : convertValue (goSprintfV x) it with
    | error e => rw [hcv] at h; simp at h
    | ok c =>
      rw [hcv] at h
      cases hm : allConverted it (xs.map goSprintfV) with
      | none => rw [hm] at h; simp at h
      | some cs =>
        rw [hm] at h
        simp only [Option.map_some', Option.some.injEq] at h
        subst h
        rw [convertItems.eq_def]
        simp only [hcv, ih (i + 1) cs hm, Except.map]

/-- When every comma-split part converts successfully under the `items`
schema after trimming, the CSV item loop returns exactly those
converted elements. -/
theorem convertItemsCSV_of_allConverted (it : ParameterSchema) :
    ∀ (ps : List String) (i : Nat) (ys : List GoValue),
      allConverted it (ps.map goTrim) = some ys →
      convertItemsCSV it ps i = .ok ys := by
  intro ps
  induction ps with
  | nil =>
    intro i ys h
    simp only [List.map_nil, allConverted, Option.some.injEq] at h
    subst h
    rw [convertItemsCSV.eq_def]
  | cons p ps ih =>
    intro i ys h
    simp only [List.map_cons, allConverted] at h
    cases hcv : convertValue (goTrim p) it with
    | error e => rw [hcv] at h; simp at h
    | ok c =>
      rw [hcv] at h
      cases hm : allConverted it (ps.map goTrim) with
      | none => rw [hm] at h; simp at h
      | some cs =>
        rw [hm] at h
        simp only [Option.map_some', Option.some.injEq] at h
        subst h
        rw [convertItemsCSV.eq_def]
        simp only [hcv, ih (i + 1) cs hm, Except.map]

/-- C6: array conversion.  (1) An input whose trimmed form is empty
yields a 0-element sequence.  (2) A bracketed trimmed input is
JSON-decoded; with no `items` schema the decoded elements are returned
as-is.  (3) With an `items` schema, each JSON-decoded element is
re-rendered with `%v` and recursively converted under it.  (4) A
non-bracketed non-empty trimmed input is split on `,`; with no `items`
schema the trimmed parts are returned as strings.  (5) With an `items`
schema each trimmed part is recursively converted under it. -/
theorem convertArray_rules :
    (∀ (v : String) (s : ParameterSchema), goTrim v = "" →
      convertArray v s = .ok (.arr []))
  ∧ (∀ (v : String) (s : ParameterSchema) (xs : List GoValue),
      isJSONArray (goTrim v) = true → goUnmarshalArr (goTrim v) = some xs →
      s.items = none → convertArray v s = .ok (.arr xs))
  ∧ (∀ (v : String) (s it : ParameterSchema) (xs ys : List GoValue),
      isJSONArray (goTrim v) = true → goUnmarshalArr (goTrim v) = some xs →
      s.items = some it → allConverted it (xs.map goSprintfV) = some ys →
      convertArray v s = .ok (.arr ys))
  ∧ (∀ (v : String) (s : ParameterSchema),
      isJSONArray (goTrim v) = false → goTrim v ≠ "" → s.items = none →
      convertArray v s =
        .ok (.arr ((goSplitComma (goTrim v)).map (fun p => GoValue.str (goTrim p)))))
  ∧ (∀ (v : String) (s it : ParameterSchema) (ys : List GoValue),
      isJSONArray (goTrim v) = false → goTrim v ≠ "" → s.items = some it →
      allConverted it ((goSplitComma (goTrim v)).map goTrim) = some ys →
      convertArray v s = .ok (.arr ys)) := by
  refine ⟨?_, ?_, ?_, ?_, ?_⟩
  · intro v s h
    rw [convertArray.eq_def]
    simp [h, show isJSONArray "" = false from by decide]
  · intro v s xs hja hu hit
    rw [convertArray.eq_def]
    simp only [hja, if_true, hu]
    split
    · rename_i it' heq
      rw [hit] at heq
      exact absurd heq (by simp)
    · rfl
  · intro v s it xs ys hja hu hit hall
    rw [convertArray.eq_def]
    simp only [hja, if_true, hu]
    split
    · rename_i it' heq
      rw [hit] at heq
      injection heq with heq2
      subst heq2
      rw [convertItems_of_allConverted it xs 0 ys hall]
      rfl
    · rename_i heq
      rw [hit] at heq
      exact absurd heq (by simp)
  · intro v s hja hne hit
    rw [convertArray.eq_def]
    rw [if_neg (by simp [hja]), if_neg hne]
    split
    · rename_i it' heq
      rw [hit] at heq
      exact absurd heq (by simp)
    · rfl
  · intro v s it ys hja hne hit hall
    rw [convertArray.eq_def]
    rw [if_neg (by simp [hja]), if_neg hne]
    split
    · rename_i it' heq
      rw [hit] at heq
      injection heq with heq2
      subst heq2
      have hc := convertItemsCSV_of_allConverted it (goSplitComma (goTrim v)) 0 ys hall
      simp only [hc, Except.map]
    · rename_i heq
      rw [hit] at heq
      exact absurd heq (by simp)

/-- C6 witness: `[1,2,3]` and `1,2,3` under array-of-integer both give
the three-element integer sequence, and the empty string gives the
empty sequence. -/
theorem convertArray_rules_witness :
    convertArray "[1,2,3]" intArraySchema = .ok (.arr [.int 1, .int 2, .int 3])
    ∧ convertArray "1,2,3" intArraySchema = .ok (.arr [.int 1, .int 2, .int 3])
    ∧ convertArray "" intArraySchema = .ok (.arr []) := by
  have hcv1 : convertValue "1" intItemSchema = .ok (.int 1) := by
    rw [convertValue.eq_def, if_neg (by decide), convertByType.eq_def]
    norm_num
    rfl
  have hcv2 : convertValue "2" intItemSchema = .ok (.int 2) := by
    rw [convertValue.eq_def, if_neg (by decide), convertByType.eq_def]
    norm_num
    rfl
  have hcv3 : convertValue "3" intItemSchema = .ok (.int 3) := by
    rw [convertValue.eq_def, if_neg (by decide), convertByType.eq_def]
    norm_num
    rfl
  refine ⟨?_, ?_, ?_⟩
  · refine convertArray_rules.2.2.1 "[1,2,3]" intArraySchema intItemSchema
      [.float (mkRat 1 1), .float (mkRat 2 1), .float (mkRat 3 1)]
      [.int 1, .int 2, .int 3] (by decide) rfl rfl ?_
    have h1 : goSprintfV (.float (mkRat 1 1)) = "1" := rfl
    have h2 : goSprintfV (.float (mkRat 2 1)) = "2" := rfl
    have h3 : goSprintfV (.float (mkRat 3 1)) = "3" := rfl
    simp only [List.map_cons, List.map_nil, h1, h2, h3, allConverted, hcv1, hcv2, hcv3,
      Option.map_some']
  · refine convertArray_rules.2.2.2.2 "1,2,3" intArraySchema intItemSchema
      [.int 1, .int 2, .int 3] (by decide) (by decide) rfl ?_
    have hp : (goSplitComma (goTrim "1,2,3")).map goTrim = ["1", "2", "3"] := rfl
    rw [hp]
    simp only [allConverted, hcv1, hcv2, hcv3, Option.map_some']
  · exact convertArray_rules.1 "" intArraySchema rfl

/-- C7: `validateRequired` succeeds iff every required name is a key of
the converted map; on failure its single error message lists every
missing name (in declaration order); with required `{a, b}` and only
`a` supplied it names `b`, and with neither it names both. -/
theorem validateRequired_rules :
    (∀ (params : List (String × GoValue)) (schema : ToolSchema),
      (validateRequired params schema = none ↔
        ∀ r ∈ schema.required, (lookupKey params r).isSome = true))
  ∧ (∀ (params : List (String × GoValue)) (schema : ToolSchema) (e : GoError),
      validateRequired params schema = some e →
      e = .plain ("missing required parameters: ["
        ++ joinSpace (missingRequired params schema) ++ "]"))
  ∧ validateRequired [("a", .str "x")] ⟨[], ["a", "b"]⟩
      = some (.plain "missing required parameters: [b]")
  ∧ validateRequired [] ⟨[], ["a", "b"]⟩
      = some (.plain "missing required parameters: [a b]") := by
  refine ⟨?_, ?_, rfl, rfl⟩
  · intro params schema
    unfold validateRequired
    by_cases hm : missingRequired params schema = []
    · rw [if_neg (by simp [hm])]
      simp only [true_iff]
      intro r hr
      have := (List.filter_eq_nil_iff.mp hm) r hr
      simp only [decide_eq_true_eq] at this
      cases hopt : lookupKey params r with
      | none => exact absurd (by simp [hopt]) this
      | some v => simp
    · rw [if_pos (by simp [List.length_pos, hm])]
      simp only [reduceCtorEq, false_iff, not_forall]
      have hne := hm
      unfold missingRequired at hne
      rcases List.exists_mem_of_ne_nil _ hne with ⟨r, hr⟩
      have hrm := List.mem_filter.mp hr
      refine ⟨r, hrm.1, ?_⟩
      have h2 : lookupKey params r = none := by
        have := hrm.2
        simp only [decide_eq_true_eq, Option.isNone_iff_eq_none] at this
        exact this
      simp [h2]
  · intro params schema e h
    simp only [validateRequired] at h
    split at h
    · exact ((Option.some.injEq _ _).mp h).symm
    · cases h

/-- C7 witness: both failure shapes, plus a success, produced through
the theorem. -/
theorem validateRequired_rules_witness :
    validateRequired [("a", .str "x")] ⟨[], ["a"]⟩ = none
    ∧ validateRequired [("a", .str "x")] ⟨[], ["a", "b"]⟩
        = some (.plain "missing required parameters: [b]") := by
  constructor
  · exact (validateRequired_rules.1 [("a", .str "x")] ⟨[], ["a"]⟩).mpr (by decide)
  · exact validateRequired_rules.2.2.1

/-- C8: an argument whose (trimmed) name is absent from the schema's
parameter map is not rejected: the trimmed raw value is stored as a
string, one warning for the name is appended, and the loop continues
with the remaining arguments; end to end, an unknown `x=1` against an
empty schema parses to the raw string with one warning and no error. -/
theorem parseParams_unknown_passthrough :
    (∀ (schema : ToolSchema) (param : String) (rest : List String)
       (result : List (String × GoValue)) (warnings : List String) (n v : String),
      splitN2 param '=' = some (n, v) → goTrim n ≠ "" →
      lookupKey schema.parameters (goTrim n) = none →
      parseParamsAux schema (param :: rest) result warnings =
        parseParamsAux schema rest (insertKey result (goTrim n) (.str (goTrim v)))
          (warnings ++ [paramWarnMsg (goTrim n)]))
  ∧ parseParamsWithSchema ["x=1"] ⟨[], []⟩
      = (.ok [("x", .str "1")], [paramWarnMsg "x"]) := by
  constructor
  · intro schema param rest result warnings n v hsplit hname hlook
    rw [parseParamsAux.eq_def]
    simp only [hsplit, hname, hlook, if_neg hname, if_false]
  · rfl

/-- C8 witness: the loop step on a concrete unknown argument. -/
theorem parseParams_unknown_passthrough_witness :
    parseParamsAux ⟨[], []⟩ ["y=2"] [] [] =
      parseParamsAux ⟨[], []⟩ [] [("y", .str "2")] [paramWarnMsg "y"] := by
  exact parseParams_unknown_passthrough.1 ⟨[], []⟩ "y=2" [] [] [] "y" "2" rfl
    (by decide) rfl

/-- Decoding inverts encoding for one slice field of a well-formed
snapshot. -/
theorem decodeSlice_encodeSlice (o : Option (List GoValue)) (h : sliceWF o = true) :
    decodeSlice (encodeSlice o) = some o := by
  cases o with
  | none => rfl
  | some xs =>
    simp only [sliceWF] at h
    simp [encodeSlice, decodeSlice, h]

/-- Decoding inverts encoding for a well-formed snapshot. -/
theorem decodeCacheData_encodeCacheData (d : CacheData) (h : d.wf = true) :
    decodeCacheData (encodeCacheData d) = some d := by
  obtain ⟨t, r, p⟩ := d
  simp only [CacheData.wf, Bool.and_eq_true] at h
  obtain ⟨⟨ht, hr⟩, hp⟩ := h
  simp [encodeCacheData, decodeCacheData, List.foldlM,
    decodeSlice_encodeSlice t ht, decodeSlice_encodeSlice r hr, decodeSlice_encodeSlice p hp]

/-- Decoding inverts encoding for a version-1 envelope written by
`Save` around a well-formed snapshot. -/
theorem decodeCacheFile_encodeCacheFile (ts : String) (x : CacheData) (h : x.wf = true) :
    decodeCacheFile (encodeCacheFile ⟨1, ts, "", "", some x⟩) = some ⟨1, ts, "", "", some x⟩ := by
  have hd := decodeCacheData_encodeCacheData x h
  have henc : encodeCacheData x = .obj [("tools", encodeSlice x.tools),
      ("resources", encodeSlice x.resources), ("prompts", encodeSlice x.prompts)] := rfl
  rw [henc] at hd
  simp only [encodeCacheFile, decodeCacheFile, List.foldlM, henc]
  simp [decodeServerInfo, hd,
    show ((1 : Int) : Rat).den = 1 from by simp,
    show ((1 : Int) : Rat).num = 1 from by simp]

/-- C1: saving a well-formed snapshot and loading from the same
instance yields data structurally equal to the snapshot, with
`isFresh = true` and no error (and leaves the written file in place). -/
theorem cache_save_load_roundtrip (x : CacheData) (ts : String) (fs : CacheFs)
    (h : x.wf = true) :
    fileCache.Load (fileCache.Save (some x) ts fs).2 =
      (⟨some x, true, none⟩, (fileCache.Save (some x) ts fs).2) := by
  unfold fileCache.Save fileCache.Load
  simp [decodeCacheFile_encodeCacheFile ts x h]

/-- C1 witness: a concrete snapshot (nil resources slice, one empty
record among the tools) survives the round trip. -/
theorem cache_save_load_roundtrip_witness :
    fileCache.Load (fileCache.Save (some ⟨some [.obj []], none, some []⟩) "2024" ⟨none⟩).2 =
      (⟨some ⟨some [.obj []], none, some []⟩, true, none⟩,
        (fileCache.Save (some ⟨some [.obj []], none, some []⟩) "2024" ⟨none⟩).2) :=
  cache_save_load_roundtrip ⟨some [.obj []], none, some []⟩ "2024" ⟨none⟩ (by decide)

/-- C2: non-JSON content loads as a miss `(nil, false, nil)` and the
file is deleted; a parsed file whose version differs from 1 likewise
loads as a miss and is deleted; a missing file is a miss without error
and nothing to delete. -/
theorem cache_load_selfheal :
    fileCache.Load ⟨some .notJson⟩ = (⟨none, false, none⟩, ⟨none⟩)
  ∧ (∀ (j : GoValue) (cf : cacheFile), decodeCacheFile j = some cf → cf.version ≠ 1 →
      fileCache.Load ⟨some (.json j)⟩ = (⟨none, false, none⟩, ⟨none⟩))
  ∧ fileCache.Load ⟨none⟩ = (⟨none, false, none⟩, ⟨none⟩) := by
  refine ⟨rfl, ?_, rfl⟩
  intro j cf hdec hv
  unfold fileCache.Load
  simp [hdec, hv]

/-- C2 witness: a version-2 envelope is deleted and reported as a miss. -/
theorem cache_load_selfheal_witness :
    fileCache.Load ⟨some (.json (.obj [("version", .float (mkRat 2 1))]))⟩ =
      (⟨none, false, none⟩, ⟨none⟩) :=
  cache_load_selfheal.2.1 (.obj [("version", .float (mkRat 2 1))]) ⟨2, "", "", "", none⟩
    rfl (by decide)

/-- C10: a parsed version-1 envelope whose `data` is null or absent
loads as `(nil, true, nil)` — `isFresh` true with nil data — and the
file is retained, so a nil-data check treats this kept file as a miss
on every load. -/
theorem cache_load_nildata (j : GoValue) (cf : cacheFile)
    (hdec : decodeCacheFile j = some cf) (hv : cf.version = 1) (hd : cf.data = none) :
    fileCache.Load ⟨some (.json j)⟩ = (⟨none, true, none⟩, ⟨some (.json j)⟩) := by
  unfold fileCache.Load
  simp [hdec, hv, hd]

/-- C10 witness: the envelope `{version: 1}` (data absent) loads fresh
with nil data and survives. -/
theorem cache_load_nildata_witness :
    fileCache.Load ⟨some (.json (.obj [("version", .float (mkRat 1 1))]))⟩ =
      (⟨none, true, none⟩, ⟨some (.json (.obj [("version", .float (mkRat 1 1))]))⟩) :=
  cache_load_nildata (.obj [("version", .float (mkRat 1 1))]) ⟨1, "", "", "", none⟩
    rfl rfl rfl

/-- One compression round preserves the working-state length. -/
theorem sha256Round_length (st : List Nat) (wi ki : Nat) :
    (sha256Round st wi ki).length = st.length := by
  unfold sha256Round
  split
  · simp
  · rfl

/-- The round fold preserves the working-state length. -/
theorem foldl_round_length (l : List (Nat × Nat)) :
    ∀ st : List Nat, (l.foldl (fun st p => sha256Round st p.1 p.2) st).length = st.length := by
  induction l with
  | nil => intro st; rfl
  | cons p l ih =>
    intro st
    simp only [List.foldl_cons, ih, sha256Round_length]

/-- Processing one block yields an 8-word state from an 8-word state. -/
theorem sha256Block_length (hs b : List Nat) (h : hs.length = 8) :
    (sha256Block hs b).length = 8 := by
  unfold sha256Block
  simp [List.length_zip, foldl_round_length, h]

/-- The block fold keeps the state at 8 words. -/
theorem foldl_block_length (chunks : List (List Nat)) :
    ∀ hs : List Nat, hs.length = 8 → (chunks.foldl sha256Block hs).length = 8 := by
  induction chunks with
  | nil => intro hs h; exact h
  | cons c chunks ih =>
    intro hs h
    simp only [List.foldl_cons]
    exact ih _ (sha256Block_length hs c h)

/-- Serializing the final state yields 4 bytes per word. -/
theorem foldr_bytes_length (l : List Nat) :
    (l.foldr (fun h acc => [h / 2 ^ 24 % 256, h / 2 ^ 16 % 256, h / 2 ^ 8 % 256, h % 256] ++ acc)
      []).length = 4 * l.length := by
  induction l with
  | nil => rfl
  | cons h l ih =>
    rw [List.foldr_cons, List.length_append, ih]
    simp only [List.length_cons, List.length_nil]
    omega

/-- A SHA-256 digest is 32 bytes, whatever the message. -/
theorem sha256Bytes_length (msg : List Nat) : (sha256Bytes msg).length = 32 := by
  unfold sha256Bytes
  rw [foldr_bytes_length, foldl_block_length _ sha256H0 (by rfl)]

/-- Hex encoding yields two characters per byte. -/
theorem hexOfBytes_length (bs : List Nat) : (hexOfBytes bs).length = 2 * bs.length := by
  unfold hexOfBytes
  show (bs.foldr _ ([] : List Char)).length = 2 * bs.length
  induction bs with
  | nil => rfl
  | cons b bs ih => simp [List.foldr_cons, ih]; omega

/-- C9: the cache key is the 16-character prefix of the hex SHA-256 of
the four connection parameters concatenated without separators, so any
two parameter tuples with equal concatenations — such as
`("ab","c",t,n)` and `("a","bc",t,n)`, which are distinct tuples —
share the key (and the cache file it names); and every key has exactly
16 characters. -/
theorem generateCacheKey_concat :
    (∀ s1 t1 a1 c1 s2 t2 a2 c2 : String,
      utf8Bytes s1 ++ utf8Bytes t1 ++ utf8Bytes a1 ++ utf8Bytes c1 =
        utf8Bytes s2 ++ utf8Bytes t2 ++ utf8Bytes a2 ++ utf8Bytes c2 →
      generateCacheKey s1 t1 a1 c1 = generateCacheKey s2 t2 a2 c2)
  ∧ (∀ t c : String, generateCacheKey "ab" "c" t c = generateCacheKey "a" "bc" t c)
  ∧ ("ab", "c") ≠ (("a", "bc") : String × String)
  ∧ (∀ s t a c : String, (generateCacheKey s t a c).length = 16) := by
  have hcongr : ∀ s1 t1 a1 c1 s2 t2 a2 c2 : String,
      utf8Bytes s1 ++ utf8Bytes t1 ++ utf8Bytes a1 ++ utf8Bytes c1 =
        utf8Bytes s2 ++ utf8Bytes t2 ++ utf8Bytes a2 ++ utf8Bytes c2 →
      generateCacheKey s1 t1 a1 c1 = generateCacheKey s2 t2 a2 c2 := by
    intro s1 t1 a1 c1 s2 t2 a2 c2 h
    unfold generateCacheKey
    rw [h]
  refine ⟨hcongr, ?_, by decide, ?_⟩
  · intro t c
    refine hcongr "ab" "c" t c "a" "bc" t c ?_
    have h2 : utf8Bytes "ab" ++ utf8Bytes "c" = utf8Bytes "a" ++ utf8Bytes "bc" := by decide
    rw [List.append_assoc (utf8Bytes "ab"), ← List.append_assoc (utf8Bytes "ab")]
    rw [h2]
  · intro s t a c
    unfold generateCacheKey
    show (List.take 16 _).length = 16
    rw [List.length_take]
    have : (hexOfBytes (sha256Bytes (utf8Bytes s ++ utf8Bytes t ++ utf8Bytes a ++
        utf8Bytes c))).data.length = 64 := by
      have hl := hexOfBytes_length (sha256Bytes (utf8Bytes s ++ utf8Bytes t ++ utf8Bytes a ++
        utf8Bytes c))
      have hs := sha256Bytes_length (utf8Bytes s ++ utf8Bytes t ++ utf8Bytes a ++ utf8Bytes c)
      simp only [String.length] at hl
      omega
    omega

/-- C9 witness: the colliding pair at concrete remaining parameters,
obtained from the congruence conjunct. -/
theorem generateCacheKey_concat_witness :
    generateCacheKey "ab" "c" "tok" "cli" = generateCacheKey "a" "bc" "tok" "cli" :=
  generateCacheKey_concat.1 "ab" "c" "tok" "cli" "a" "bc" "tok" "cli" (by decide)
